import Mathlib

set_option autoImplicit false

/-!
Verification of the Sublime-Word-Navigate plugin against its specification.

The development shallowly embeds the plugin's Python modules:

* `src/python/sublime_util/settings.py` — the settings registry
  (`SingleSetting` and its `_update`, `add_on_change`, `clear_on_change`);
* `src/python/sublime_util/validators.py` — the value validators;
* `src/python/sublime_util/view.py` — the region classifier, word locators,
  same-word search and in-line word search;
* `src/python/sublime_util/selection.py` — selection helpers;
* `src/python/word_navigate.py` — the navigation policy.

Host (Sublime Text) primitives such as `view.classify`, `view.find_by_class`,
`view.expand_by_class`, `view.find`, `view.find_all`, `view.rowcol` and
`view.text_point` are modelled over a buffer represented as `List Char`,
with word characters taken to be the regex word class (alphanumeric or
underscore).  Exceptions are modelled with `Except`; log calls are modelled
by returning the list of levels of the messages emitted.
-/

/-! ## Python values and the settings registry (`sublime_util/settings.py`) -/

/-- A Python runtime value as it can appear as a raw or stored setting value. -/
inductive PyVal where
  | pynone
  | pybool (b : Bool)
  | pyint (n : Int)
  | pystr (s : String)
deriving DecidableEq, Repr

/-- Python `str(value)` for the values above (`str(None) = "None"`, booleans
capitalised, integers in decimal). -/
def pyStr : PyVal → String
  | PyVal.pynone => "None"
  | PyVal.pybool true => "True"
  | PyVal.pybool false => "False"
  | PyVal.pyint n => toString n
  | PyVal.pystr s => s

/-- Python `str.lower()` restricted to the ASCII range used by the plugin's
setting values.  (`String.toLower` itself does not reduce in the kernel, so
the map is taken over the underlying character list.) -/
def pyLower (s : String) : String := ⟨s.data.map Char.toLower⟩

/-- A record of one synchronous listener invocation `callback(name, old, new)`
performed by `SingleSetting._update`. -/
structure Invocation where
  tag : String
  sname : String
  oldVal : PyVal
  newVal : PyVal
deriving DecidableEq, Repr

/-- The state of `SingleSetting`: name, current value (initially `None`), the
validator, and the callbacks dictionary modelled as its list of tags in
insertion order (Python dicts preserve insertion order; keys are unique). -/
structure SingleSetting where
  sname : String
  value : PyVal
  validator : PyVal → Option PyVal
  callbacks : List String

/-- `SingleSetting._update(value)`: if `str(value).lower()` differs from
`str(self._value).lower()`, validate; on success store the encoded value and
invoke every registered callback once with `(name, old, new)`; on rejection
raise `ValueError` (no mutation, no callback).  If the lowered string forms
agree, do nothing. -/
def SingleSetting.update (s : SingleSetting) (v : PyVal) :
    Except String (SingleSetting × List Invocation) :=
  if pyLower (pyStr v) ≠ pyLower (pyStr s.value) then
    match s.validator v with
    | some enc =>
        Except.ok ({ s with value := enc },
          s.callbacks.map (fun tag => ⟨tag, s.sname, s.value, enc⟩))
    | none =>
        Except.error ("ValueError: value " ++ pyStr v ++ " for setting " ++
          s.sname ++ " not supported")
  else
    Except.ok (s, [])

/-- `SingleSetting.add_on_change(tag, callback)`: raises `ValueError` when the
tag is already registered, otherwise appends the entry to the dictionary. -/
def SingleSetting.add_on_change (s : SingleSetting) (tag : String) :
    Except String SingleSetting :=
  if s.callbacks.contains tag then
    Except.error ("ValueError: tag " ++ tag ++ " already registered for setting " ++ s.sname)
  else
    Except.ok { s with callbacks := s.callbacks ++ [tag] }

/-- `SingleSetting.clear_on_change(tag)`: raises `ValueError` when the tag is
not registered, otherwise deletes the entry. -/
def SingleSetting.clear_on_change (s : SingleSetting) (tag : String) :
    Except String SingleSetting :=
  if s.callbacks.contains tag then
    Except.ok { s with callbacks := s.callbacks.filter (fun t => t ≠ tag) }
  else
    Except.error ("ValueError: tag " ++ tag ++ " not registered for setting " ++ s.sname)

/-! ## Validators (`sublime_util/validators.py`) -/

/-- `BooleanValidator.validate`: lowers `str(value)` and maps `"true"` /
`"false"` to the booleans, anything else to `None` (rejection). -/
def BooleanValidator.validate (v : PyVal) : Option PyVal :=
  let s := pyLower (pyStr v)
  if s = "true" then some (PyVal.pybool true)
  else if s = "false" then some (PyVal.pybool false)
  else none

/-- `ListValidator.validate`: returns the first allowed value equal to
`value.lower()`, else `None`.  The Python code calls `.lower()` on the raw
value, so only string raw values are in the modelled domain (CPython raises
`AttributeError` otherwise; those inputs are mapped to rejection here). -/
def ListValidator.validate (allowed : List String) (v : PyVal) : Option PyVal :=
  match v with
  | PyVal.pystr s =>
      match allowed.find? (fun a => pyLower s = a) with
      | some a => some (PyVal.pystr a)
      | none => none
  | _ => none

/-- The two bound fields the `IntegerRangeValidator` constructor is meant to
set from its parameters. -/
structure IntegerRangeValidator where
  lowBound : Int
  highBound : Int
deriving DecidableEq, Repr

/-- `IntegerRangeValidator.__init__(self, min, max)` executes
`self._min = minimum` and `self._max = maximum`, but its parameters are named
`min` and `max` and no global `minimum` or `maximum` exists, so every
construction raises `NameError` before any field is assigned. -/
def IntegerRangeValidator.init (mn mx : Int) : Except String IntegerRangeValidator :=
  Except.error "NameError: name minimum is not defined"

/-- `IntegerRangeValidator.validate`: `value` when
`value >= self._min and value <= self._max`, else `None`.  (Reachable only on
an instance whose fields were assigned, which the constructor never does.) -/
def IntegerRangeValidator.validate (r : IntegerRangeValidator) (v : Int) : Option Int :=
  if v ≥ r.lowBound ∧ v ≤ r.highBound then some v else none

/-- A concrete boolean setting used to witness the settings theorems, shaped
like the plugin's `wrap_buffer` setting with one registered listener. -/
def sampleBoolSetting : SingleSetting :=
  { sname := "wrap_buffer"
    value := PyVal.pybool true
    validator := BooleanValidator.validate
    callbacks := ["tagA"] }

/-! ## The buffer model and host text-classification primitives

`src/python/sublime_util/view.py` relies on the host primitives
`view.classify`, `view.find_by_class` and `view.expand_by_class` restricted to
the classes `WORD_START` and `WORD_END`.  The buffer is a list of characters;
a point is an offset in `[0, length]`.  A point is a word start when a word
character follows it and no word character precedes it, and a word end when a
word character precedes it and none follows (word characters are the regex
`\w` class).  `find_by_class` scans strictly beyond the point and clamps to
the buffer bounds (`length` forward, `0` backward) when no match exists. -/

abbrev Buffer := List Char

/-- A character of the regex `\w` class (alphanumeric or underscore). -/
def isWordChar (c : Char) : Bool := c.isAlphanum || c = '_'

/-- Whether the character at offset `i` exists and is a word character. -/
def isWordAt (buf : Buffer) (i : Nat) : Bool :=
  match buf[i]? with
  | some c => isWordChar c
  | none => false

/-- `view.classify(pt) & WORD_START`. -/
def isWordStart (buf : Buffer) (pt : Nat) : Bool :=
  isWordAt buf pt && (pt == 0 || !isWordAt buf (pt - 1))

/-- `view.classify(pt) & WORD_END`. -/
def isWordEnd (buf : Buffer) (pt : Nat) : Bool :=
  pt != 0 && isWordAt buf (pt - 1) && !isWordAt buf pt

/-- Whether `pt` matches a class mask made of `WORD_START` (`ws`) and
`WORD_END` (`we`). -/
def matchesClass (buf : Buffer) (ws we : Bool) (pt : Nat) : Bool :=
  (ws && isWordStart buf pt) || (we && isWordEnd buf pt)

/-- Fuelled forward scan for `find_by_class`: checks `fuel` consecutive points
starting at `q` and falls back to the buffer length. -/
def scanFwd (buf : Buffer) (ws we : Bool) : Nat → Nat → Nat
  | _, 0 => buf.length
  | q, fuel+1 => if matchesClass buf ws we q then q else scanFwd buf ws we (q+1) fuel

/-- `view.find_by_class(pt, forward=True, classes)`: the first point strictly
after `pt` (up to the buffer length) matching the mask, else the length. -/
def findByClassFwd (buf : Buffer) (ws we : Bool) (pt : Nat) : Nat :=
  scanFwd buf ws we (pt + 1) (buf.length - pt)

/-- Backward scan for `find_by_class`: checks `q, q-1, …, 1` and falls back
to `0`. -/
def scanBwd (buf : Buffer) (ws we : Bool) : Nat → Nat
  | 0 => 0
  | q+1 => if matchesClass buf ws we (q+1) then q+1 else scanBwd buf ws we q

/-- `view.find_by_class(pt, forward=False, classes)`: the last point strictly
before `pt` matching the mask, else `0`. -/
def findByClassBwd (buf : Buffer) (ws we : Bool) (pt : Nat) : Nat :=
  match pt with
  | 0 => 0
  | q+1 => scanBwd buf ws we q

/-- A Sublime `Region`: endpoints `a` (anchor) and `b` (caret), possibly
reversed (`a > b`). -/
structure Region where
  a : Nat
  b : Nat
deriving DecidableEq, Repr

/-- `Region.begin()`: the smaller endpoint. -/
def Region.begin (r : Region) : Nat := Nat.min r.a r.b

/-- `Region.end()`: the larger endpoint (named `stop` because `end` is a Lean
keyword). -/
def Region.stop (r : Region) : Nat := Nat.max r.a r.b

/-- `Region.empty()`. -/
def Region.isEmpty (r : Region) : Bool := r.a == r.b

/-- `selection.reverse_region`: `sublime.Region(region.end(), region.begin())`. -/
def reverseRegion (r : Region) : Region := Region.mk r.stop r.begin

/-! ## The region classifier (`view.py`, lines 120–223) -/

/-- `is_not_part_of_any_word`: an empty region at a word start is no-word;
otherwise expand the begin point forward to the first word boundary and
report no-word exactly when that boundary is a word start at or past the
region end. -/
def is_not_part_of_any_word (buf : Buffer) (r : Region) : Bool :=
  if isWordStart buf r.begin && r.isEmpty then true
  else
    let expStartPt := findByClassFwd buf true true r.begin
    isWordStart buf expStartPt && decide (r.stop ≤ expStartPt)

/-- `is_single_complete_word`: the region begins at a word start and ends at
the word end found forward from that start. -/
def is_single_complete_word (buf : Buffer) (r : Region) : Bool :=
  if isWordStart buf r.begin then
    findByClassFwd buf false true r.begin == r.stop
  else false

/-- `is_multiple_complete_words`: the region begins at a word start, ends at a
word end, and is not a single complete word. -/
def is_multiple_complete_words (buf : Buffer) (r : Region) : Bool :=
  if isWordStart buf r.begin then
    if isWordEnd buf r.stop then !is_single_complete_word buf r else false
  else false

/-- `is_part_of_multiple_words`: from the region begin, find the next word end
and then the next word start after it; the region is part of multiple words
when it reaches at least one character past that start. -/
def is_part_of_multiple_words (buf : Buffer) (r : Region) : Bool :=
  let endPoint := findByClassFwd buf false true r.begin
  let startPoint := findByClassFwd buf true false endPoint
  decide (startPoint + 1 ≤ r.stop)

/-- The fourth word-shape category as the navigation dispatch in
`word_navigate.py` effectively computes it: the region satisfies none of the
three predicates tested before it, covering both the code's
`is_part_of_multiple_words` branch and its final else branch (selection
within a single word). -/
def is_mixed_word_selection (buf : Buffer) (r : Region) : Bool :=
  !is_not_part_of_any_word buf r && !is_single_complete_word buf r &&
    !is_multiple_complete_words buf r

/-- The buffer `"ab cd"`, used for concrete classifier inputs. -/
def cexBuf : Buffer := ['a', 'b', ' ', 'c', 'd']

/-! ## Line geometry (`view.rowcol`, `view.text_point`) -/

/-- `view.rowcol(pt)[0]`: the number of newline characters strictly before
`pt`. -/
def rowOf : Buffer → Nat → Nat
  | _, 0 => 0
  | [], _+1 => 0
  | c :: cs, pt+1 => (if c = '\n' then 1 else 0) + rowOf cs pt

/-- The offset of the first character of row `row` (the buffer length when
the row does not exist, matching the host's clamping). -/
def lineStartPos : Buffer → Nat → Nat
  | _, 0 => 0
  | [], _+1 => 0
  | c :: cs, r+1 => if c = '\n' then lineStartPos cs r + 1 else lineStartPos cs (r+1) + 1

/-- `view.rowcol(pt)[1]`: offset within the row. -/
def colOf (buf : Buffer) (pt : Nat) : Nat := pt - lineStartPos buf (rowOf buf pt)

/-- `view.text_point(row, col)`, clamped to the buffer bounds. -/
def textPoint (buf : Buffer) (row col : Nat) : Nat :=
  Nat.min (lineStartPos buf row + col) buf.length

/-! ## Word locators (`view.py`, lines 15–118) -/

/-- `view.expand_by_class(pt, WORD_START | WORD_END)`: the span between the
nearest matching boundaries strictly on either side of `pt`. -/
def expandByClassWsWe (buf : Buffer) (pt : Nat) : Region :=
  Region.mk (findByClassBwd buf true true pt) (findByClassFwd buf true true pt)

/-- `_get_word_region_near_pt(view, pt, in_line, get_point)`: see `view.py`
lines 15–67; `getPoint` is the callable deciding where to continue from when
`pt` touches no word. -/
def wordRegionNearPt (buf : Buffer) (pt : Nat) (inLine : Bool)
    (getPoint : Nat → Region → Nat) : Region :=
  let expandedRegion := expandByClassWsWe buf pt
  if isWordStart buf pt then Region.mk pt expandedRegion.stop
  else if isWordEnd buf pt then Region.mk expandedRegion.begin pt
  else if isWordStart buf expandedRegion.begin then expandedRegion
  else
    let startLine := rowOf buf pt
    let newPt := getPoint pt expandedRegion
    let newLine := rowOf buf newPt
    let newPt2 :=
      if inLine && startLine ≠ newLine then
        if newLine < startLine then findByClassFwd buf true false pt
        else findByClassBwd buf false true pt
      else newPt
    if isWordStart buf newPt2 then
      Region.mk newPt2 (findByClassFwd buf false true newPt2)
    else
      Region.mk (findByClassBwd buf true false newPt2) newPt2

/-- The `get_closest_point` callable of `get_closest_word_region_from_pt`. -/
def closestPoint (pt : Nat) (r : Region) : Nat :=
  if pt - r.begin ≤ r.stop - pt then r.begin else r.stop

/-- `get_closest_word_region_from_pt`. -/
def get_closest_word_region_from_pt (buf : Buffer) (pt : Nat) (inLine : Bool) : Region :=
  wordRegionNearPt buf pt inLine closestPoint

/-- `get_next_word_region_from_pt`: continue from the expanded region's end. -/
def get_next_word_region_from_pt (buf : Buffer) (pt : Nat) (inLine : Bool) : Region :=
  wordRegionNearPt buf pt inLine (fun _ r => r.stop)

/-- `get_previous_word_region_from_pt`: continue from the expanded region's
begin. -/
def get_previous_word_region_from_pt (buf : Buffer) (pt : Nat) (inLine : Bool) : Region :=
  wordRegionNearPt buf pt inLine (fun _ r => r.begin)

/-- `view.word(pt)` (host primitive): the word region touching `pt`; the
empty region at `pt` when `pt` touches no word character. -/
def wordAtPt (buf : Buffer) (pt : Nat) : Region :=
  if isWordAt buf pt || (decide (0 < pt) && isWordAt buf (pt - 1)) then
    Region.mk
      (if isWordStart buf pt then pt else findByClassBwd buf true false pt)
      (if isWordEnd buf pt then pt else findByClassFwd buf false true pt)
  else Region.mk pt pt

/-- `view.word(region)` (host primitive): spans from the word touching the
region's begin to the word touching its end. -/
def viewWord (buf : Buffer) (r : Region) : Region :=
  Region.mk (wordAtPt buf r.begin).begin (wordAtPt buf r.stop).stop

/-! ## Same-word search (`view.py`, lines 225–273) -/

/-- `view.substr(region)`. -/
def substr (buf : Buffer) (r : Region) : List Char :=
  (buf.take r.stop).drop r.begin

/-- Case-aware character list comparison used by the host regex search. -/
def charsMatch (cs : Bool) (xs ys : List Char) : Bool :=
  match xs, ys with
  | [], [] => true
  | x :: xs, y :: ys =>
      (if cs then x == y else x.toLower == y.toLower) && charsMatch cs xs ys
  | _, _ => false

/-- A regex `\b` boundary at `pt`: exactly one side of `pt` is a word
character. -/
def wordBoundaryAt (buf : Buffer) (pt : Nat) : Bool :=
  isWordAt buf pt != (decide (0 < pt) && isWordAt buf (pt - 1))

/-- Whether the pattern `\b<word>\b` matches at offset `s` (case-sensitive or
not). -/
def matchesWordAt (buf : Buffer) (word : List Char) (cs : Bool) (s : Nat) : Bool :=
  decide (s + word.length ≤ buf.length) &&
    charsMatch cs (substr buf (Region.mk s (s + word.length))) word &&
    wordBoundaryAt buf s && wordBoundaryAt buf (s + word.length)

/-- `view.find(r"\b<word>\b", point, flags)` (host primitive).  Forward: the
first match starting at or after `point`; backward (`REVERSE`): the last
match ending at or before `point`; with `WRAP`, continue from the opposite
end of the buffer.  `none` models Sublime's `Region(-1, -1)` not-found
result. -/
def viewFind (buf : Buffer) (word : List Char) (point : Nat)
    (forward wrap cs : Bool) : Option Region :=
  let cand := (List.range (buf.length + 1)).filter (fun s => matchesWordAt buf word cs s)
  let toRegion := fun s => Region.mk s (s + word.length)
  if forward then
    match (cand.filter (fun s => decide (point ≤ s))).head? with
    | some s => some (toRegion s)
    | none =>
        if wrap then ((cand.filter (fun s => decide (s < point))).head?).map toRegion
        else none
  else
    match (cand.filter (fun s => decide (s + word.length ≤ point))).getLast? with
    | some s => some (toRegion s)
    | none =>
        if wrap then
          ((cand.filter (fun s => decide (point < s + word.length))).getLast?).map toRegion
        else none

/-- `get_region_of_closet_same_word`: search from the region's end (forward)
or begin (backward) for the next `\b`-anchored occurrence of the region's
literal text; an empty found region (Sublime's not-found sentinel) yields
`None`. -/
def get_region_of_closet_same_word (buf : Buffer) (wordRegion : Region)
    (forward wrap cs : Bool) : Option Region :=
  let point := if forward then wordRegion.stop else wordRegion.begin
  let word := substr buf wordRegion
  match viewFind buf word point forward wrap cs with
  | some r => if r.isEmpty then none else some r
  | none => none

/-! ## Selection model (`sublime_util/selection.py`) and navigation policy
(`word_navigate.py`) -/

/-- The view state the navigation commands read and write: the buffer and the
selection (a non-empty sorted list of regions in Sublime; modelled as a
list). -/
structure View where
  buf : Buffer
  sel : List Region
deriving DecidableEq, Repr

/-- Levels of log messages.  The navigation embeddings record the messages a
command emits at warning level and above (the numerous `logger.debug` trace
calls are not modelled); the claims only count warnings. -/
inductive LogLevel where
  | debug
  | info
  | warning
  | error
deriving DecidableEq, Repr

/-- `selection.is_multiple_regions_selected`. -/
def is_multiple_regions_selected (v : View) : Bool := decide (1 < v.sel.length)

/-- `selection.get_caret_point` for a single-region selection: `sel[0].b`.
(The Python helper raises on multiple regions; every call site has already
ruled that out.) -/
def get_caret_point (v : View) : Nat :=
  match v.sel.head? with
  | some r => r.b
  | none => 0

/-- The navigation-relevant plugin settings (all booleans). -/
structure NavSettings where
  use_index : Bool
  allow_multiple_words : Bool
  expand_first : Bool
  wrap_buffer : Bool
  wrap_line : Bool
  case_sensitive : Bool
deriving DecidableEq, Repr

/-- Modelled from the spec: `word_navigate.py` imports an `index` module that
is not present under `src/`; the spec's design notes record that `get_index`
raises (`KeyError`, caught and logged as a warning by the caller) and that
the direct search path is therefore always used. -/
def get_index (bufId : Nat) : Except String Nat :=
  Except.error "KeyError"

/-- The tail of `_get_region_of_word_closest_to_region` once `word_region` is
fixed (`word_navigate.py` lines 102–118): consult the index when
`use_index` (always failing, adding one warning), then navigate manually via
the same-word search.  The unreachable `idx is not None` path (which logs a
warning and implicitly returns `None`) is kept guarded by the `get_index`
result. -/
def searchClosestSameWord (buf : Buffer) (st : NavSettings) (wordRegion : Region)
    (forward : Bool) : Option Region × List LogLevel :=
  let idxres :=
    if st.use_index then
      match get_index 0 with
      | Except.ok i => (some i, ([] : List LogLevel))
      | Except.error _ => (none, [LogLevel.warning])
    else (none, [])
  match idxres with
  | (some _, logs) => (none, logs ++ [LogLevel.warning])
  | (none, logs) =>
      (get_region_of_closet_same_word buf wordRegion forward st.wrap_buffer st.case_sensitive,
        logs)

/-- `_get_region_of_word_closest_to_region(view, region, forward)`: the
same-word navigation dispatch over the classifier categories
(`word_navigate.py` lines 31–118).  `caret` is
`selection.get_caret_point(view)` as evaluated at the callsites inside the
branches. -/
def getRegionOfWordClosestToRegion (buf : Buffer) (st : NavSettings) (caret : Nat)
    (region : Region) (forward : Bool) : Option Region × List LogLevel :=
  if is_not_part_of_any_word buf region then
    (some (if forward then get_next_word_region_from_pt buf caret false
           else get_previous_word_region_from_pt buf caret false),
      [])
  else if is_single_complete_word buf region then
    searchClosestSameWord buf st region forward
  else if is_multiple_complete_words buf region then
    if !st.allow_multiple_words then
      if st.expand_first then
        (some (get_closest_word_region_from_pt buf caret false), [])
      else
        searchClosestSameWord buf st (get_closest_word_region_from_pt buf caret false) forward
    else
      searchClosestSameWord buf st region forward
  else if is_part_of_multiple_words buf region then
    if !st.allow_multiple_words then
      if st.expand_first then
        (some (get_closest_word_region_from_pt buf caret false), [])
      else
        searchClosestSameWord buf st (get_closest_word_region_from_pt buf caret false) forward
    else
      if st.expand_first then (some (viewWord buf region), [])
      else searchClosestSameWord buf st region forward
  else
    if st.expand_first then (some (viewWord buf region), [])
    else searchClosestSameWord buf st (viewWord buf region) forward

/-- `_get_region_of_word_closest_to_selection(view, forward)`: abort with one
warning when multiple regions are selected, otherwise dispatch on the single
selected region.  (An empty selection list would raise `IndexError` in
CPython; Sublime views always carry at least one region, so that case is
mapped to no result.) -/
def getRegionOfWordClosestToSelection (v : View) (st : NavSettings) (forward : Bool) :
    Option Region × List LogLevel :=
  if is_multiple_regions_selected v then (none, [LogLevel.warning])
  else
    match v.sel.head? with
    | some region => getRegionOfWordClosestToRegion v.buf st (get_caret_point v) region forward
    | none => (none, [])

/-- `_navigate(view, forward)`: compute the destination and, when one exists,
replace the selection with it (`select_and_zoom_to_region` clears the
selection and adds the region); otherwise leave the view untouched. -/
def navigate (v : View) (st : NavSettings) (forward : Bool) : View × List LogLevel :=
  match getRegionOfWordClosestToSelection v st forward with
  | (some region, logs) => ({ v with sel := [region] }, logs)
  | (none, logs) => (v, logs)

/-! ## In-line word search (`view.py`, lines 275–363) and the in-line
navigation commands (`word_navigate.py`, lines 158–217) -/

/-- All maximal word-character runs of the buffer, each as the region from a
word start to the word end found forward from it. -/
def wordRuns (buf : Buffer) : List Region :=
  ((List.range buf.length).filter (fun s => isWordStart buf s)).map
    (fun s => Region.mk s (findByClassFwd buf false true s))

/-- `view.find_all(r"\b(\w+)\b", flags, within=line_region)` (host
primitive): the word runs lying entirely inside the region, in buffer order
(the `REVERSE` flag does not affect `find_all` ordering; the code picks the
last element for backward searches). -/
def findAllWordsWithin (buf : Buffer) (r : Region) : List Region :=
  (wordRuns buf).filter (fun w => decide (r.begin ≤ w.a) && decide (w.b ≤ r.stop))

/-- The span searched by the inner `_get_region_of_closet_word_in_line`
helper: from `(line, col)` to the start of the next line when forward, from
the start of the line to `(line, col)` when backward. -/
def lineSearchRegion (buf : Buffer) (forward : Bool) (line col : Nat) : Region :=
  if forward then Region.mk (textPoint buf line col) (textPoint buf (line + 1) 0)
  else Region.mk (textPoint buf line 0) (textPoint buf line col)

/-- The final choice of `get_region_of_closest_word_in_line`: the first found
region when forward, the reverse of the last one when backward; `none` when
nothing was found. -/
def pickRegion (forward : Bool) (regions : List Region) : Option Region :=
  if forward then regions.head?
  else (regions.getLast?).map reverseRegion

/-- The `(line, col)` the wrap retry searches from: column `0` of the same
line when forward; the row/column of `text_point(line + 1, 0) - 1` (the end
of the line) when backward. -/
def wrapTarget (buf : Buffer) (line : Nat) (forward : Bool) : Nat × Nat :=
  if forward then (line, 0)
  else (rowOf buf (textPoint buf (line + 1) 0 - 1),
    colOf buf (textPoint buf (line + 1) 0 - 1))

/-- `get_region_of_closest_word_in_line(view, point, forward, wrap)`: search
the part of the current line on the requested side of `point`; if nothing is
found and `wrap` is set, search once more from the opposite end of the line
unless the starting column already was that end (`col == new_col`), in which
case return `None` without retrying. -/
def getRegionOfClosestWordInLine (buf : Buffer) (point : Nat) (forward wrap : Bool) :
    Option Region :=
  let line := rowOf buf point
  let col := colOf buf point
  let regions := findAllWordsWithin buf (lineSearchRegion buf forward line col)
  if regions.isEmpty then
    if !wrap then none
    else
      let t := wrapTarget buf line forward
      if col = t.2 then none
      else pickRegion forward (findAllWordsWithin buf (lineSearchRegion buf forward t.1 t.2))
  else pickRegion forward regions

/-- `_get_region_of_closest_word_in_line(view, forward)`: abort with one
warning on a multi-region selection; on a no-word selection search the line
from the caret.  Any other single-region selection evaluates
`view_util.is_single_word`, a function that does not exist in `view.py`, so
CPython raises `AttributeError` there. -/
def getRegionOfClosestWordInLineCmd (v : View) (st : NavSettings) (forward : Bool) :
    Except String (Option Region × List LogLevel) :=
  if is_multiple_regions_selected v then Except.ok (none, [LogLevel.warning])
  else
    match v.sel.head? with
    | none => Except.ok (none, [])
    | some region =>
        if is_not_part_of_any_word v.buf region then
          Except.ok (getRegionOfClosestWordInLine v.buf (get_caret_point v) forward st.wrap_line,
            [])
        else
          Except.error "AttributeError: module view has no attribute is_single_word"

/-- `_navigate_in_line(view, forward)`: apply the found region as the new
selection, or leave the view untouched when there is none. -/
def navigateInLine (v : View) (st : NavSettings) (forward : Bool) :
    Except String (View × List LogLevel) :=
  match getRegionOfClosestWordInLineCmd v st forward with
  | Except.error e => Except.error e
  | Except.ok (some region, logs) => Except.ok ({ v with sel := [region] }, logs)
  | Except.ok (none, logs) => Except.ok (v, logs)


/-- The buffer `"ab  cd ab cd"`, used for concrete navigation inputs. -/
def navBuf : Buffer := ['a', 'b', ' ', ' ', 'c', 'd', ' ', 'a', 'b', ' ', 'c', 'd']

/-- Concrete settings: index disabled, buffer wrap disabled, case-sensitive
matching (the remaining flags as shipped defaults). -/
def manualSettings : NavSettings :=
  { use_index := false
    allow_multiple_words := true
    expand_first := true
    wrap_buffer := false
    wrap_line := true
    case_sensitive := true }

/-- A view with two disjoint selected regions. -/
def multiSelView : View := { buf := navBuf, sel := [Region.mk 0 1, Region.mk 4 5] }

/-- A view over `"ab cd"` with the word `"cd"` selected. -/
def cdSelView : View := { buf := cexBuf, sel := [Region.mk 3 5] }


/-- The single-line buffer `"ab"`. -/
def abBuf : Buffer := ['a', 'b']

/-! ## Theorems about the settings registry -/

/-- Claim C3: for every setting and every raw value rejected by the setting's
validator whose lowered string form differs from the stored value's, the
update fails with a `ValueError`; because the exception is raised before any
assignment or callback loop, the stored value is unchanged and no listener is
invoked (both facts carried here by the `Except.error` result, which returns
no successor state and no invocation list). -/
theorem rejected_update_raises_and_preserves (s : SingleSetting) (v : PyVal)
    (hdiff : pyLower (pyStr v) ≠ pyLower (pyStr s.value))
    (hrej : s.validator v = none) :
    ∃ msg, SingleSetting.update s v = Except.error msg := by
  unfold SingleSetting.update
  rw [if_pos hdiff, hrej]
  exact ⟨_, rfl⟩

/-- Witness for C3: updating the sample boolean setting with the raw string
`"maybe"` is rejected and raises. -/
theorem rejected_update_raises_and_preserves_witness :
    ∃ msg, SingleSetting.update sampleBoolSetting (PyVal.pystr "maybe") = Except.error msg :=
  rejected_update_raises_and_preserves sampleBoolSetting (PyVal.pystr "maybe")
    (by decide) (by decide)

/-- Claim C4: for every update with a valid raw value (the validator returning
a canonical encoding with the same lowered string form, as all shipped
validators do): when the new value differs from the old under
case-insensitive string comparison, the stored value becomes the encoding and
every registered listener is invoked exactly once — the invocation list has
exactly one entry per registered tag, in order, each carrying
`(name, old, new)`; when it does not differ, the stored value is unchanged
and no listener is invoked. -/
theorem valid_update_notifies_each_listener_once (s : SingleSetting) (v enc : PyVal)
    (hval : s.validator v = some enc)
    (hcanon : pyLower (pyStr enc) = pyLower (pyStr v)) :
    (pyLower (pyStr enc) ≠ pyLower (pyStr s.value) →
      SingleSetting.update s v = Except.ok ({ s with value := enc },
        s.callbacks.map (fun tag => ⟨tag, s.sname, s.value, enc⟩))) ∧
    (pyLower (pyStr enc) = pyLower (pyStr s.value) →
      SingleSetting.update s v = Except.ok (s, [])) := by
  constructor
  · intro hdiff
    unfold SingleSetting.update
    rw [if_pos (hcanon ▸ hdiff), hval]
  · intro heq
    unfold SingleSetting.update
    rw [if_neg (by rw [hcanon] at heq; simp [heq])]

/-- Witness for C4: updating the sample setting (stored `True`) with raw
string `"FALSE"` validates to `False`, stores it, and invokes the single
registered listener once with `("wrap_buffer", True, False)`. -/
theorem valid_update_notifies_each_listener_once_witness :
    SingleSetting.update sampleBoolSetting (PyVal.pystr "FALSE") =
      Except.ok ({ sampleBoolSetting with value := PyVal.pybool false },
        [⟨"tagA", "wrap_buffer", PyVal.pybool true, PyVal.pybool false⟩]) :=
  (valid_update_notifies_each_listener_once sampleBoolSetting
    (PyVal.pystr "FALSE") (PyVal.pybool false) (by decide) (by decide)).1 (by decide)

/-- Claim C8: registering a change listener under a tag already registered for
the setting raises a `ValueError` (the error branch performs no mutation, so
existing registrations are untouched), and unregistering a tag that is not
registered also raises a `ValueError` without mutating anything. -/
theorem duplicate_tag_and_missing_tag_registration_fail (s : SingleSetting) (tag : String) :
    (s.callbacks.contains tag = true →
      ∃ msg, SingleSetting.add_on_change s tag = Except.error msg) ∧
    (s.callbacks.contains tag = false →
      ∃ msg, SingleSetting.clear_on_change s tag = Except.error msg) := by
  constructor
  · intro h
    unfold SingleSetting.add_on_change
    rw [if_pos h]
    exact ⟨_, rfl⟩
  · intro h
    unfold SingleSetting.clear_on_change
    rw [if_neg (by rw [h]; decide)]
    exact ⟨_, rfl⟩

/-- Witness for C8: on the sample setting, re-registering the present tag
`"tagA"` fails, and unregistering the absent tag `"tagB"` fails. -/
theorem duplicate_tag_and_missing_tag_registration_fail_witness :
    (∃ msg, SingleSetting.add_on_change sampleBoolSetting "tagA" = Except.error msg) ∧
    (∃ msg, SingleSetting.clear_on_change sampleBoolSetting "tagB" = Except.error msg) :=
  ⟨(duplicate_tag_and_missing_tag_registration_fail sampleBoolSetting "tagA").1 (by decide),
   (duplicate_tag_and_missing_tag_registration_fail sampleBoolSetting "tagB").2 (by decide)⟩

/-- Claim C9 (code bug): the claim describes inclusive-bounds validation, and
`IntegerRangeValidator.validate` would implement exactly that, but the
constructor assigns from the undefined names `minimum` / `maximum` instead of
its parameters `min` / `max`, so every construction raises `NameError` and no
integer-range validator can ever exist.  This theorem evaluates both facts:
construction always errors, and the validate method on an (unconstructible)
instance accepts exactly the inclusive range. -/
theorem integer_range_validator_construction_raises (mn mx : Int)
    (r : IntegerRangeValidator) (v : Int) :
    IntegerRangeValidator.init mn mx =
      Except.error "NameError: name minimum is not defined" ∧
    (IntegerRangeValidator.validate r v = some v ↔ r.lowBound ≤ v ∧ v ≤ r.highBound) := by
  constructor
  · rfl
  · unfold IntegerRangeValidator.validate
    constructor
    · intro h
      by_contra hc
      rw [if_neg (fun hx => hc ⟨hx.1, hx.2⟩)] at h
      exact Option.noConfusion h
    · intro h
      rw [if_pos ⟨h.1, h.2⟩]

/-! ## Facts about the boundary-search primitives -/

theorem isWordAt_lt_length (buf : Buffer) (i : Nat) (h : isWordAt buf i = true) :
    i < buf.length := by
  by_contra hc
  unfold isWordAt at h
  rw [List.getElem?_eq_none (Nat.le_of_not_lt hc)] at h
  exact Bool.noConfusion h

theorem wordStart_not_wordEnd (buf : Buffer) (p : Nat) (h : isWordStart buf p = true) :
    isWordEnd buf p = false := by
  unfold isWordStart at h
  unfold isWordEnd
  simp only [Bool.and_eq_true] at h
  simp [h.1]

theorem matchesClass_we (buf : Buffer) (p : Nat) :
    matchesClass buf false true p = isWordEnd buf p := by
  simp [matchesClass]

theorem matchesClass_wswe_of_we (buf : Buffer) (p : Nat) (h : isWordEnd buf p = true) :
    matchesClass buf true true p = true := by
  simp [matchesClass, h]

theorem scanFwd_default_or_found (buf : Buffer) (ws we : Bool) :
    ∀ fuel q, scanFwd buf ws we q fuel = buf.length ∨
      (q ≤ scanFwd buf ws we q fuel ∧
        matchesClass buf ws we (scanFwd buf ws we q fuel) = true) := by
  intro fuel
  induction fuel with
  | zero => intro q; exact Or.inl rfl
  | succ n ih =>
    intro q
    simp only [scanFwd]
    by_cases h : matchesClass buf ws we q = true
    · rw [if_pos h]; exact Or.inr ⟨Nat.le_refl q, h⟩
    · rw [if_neg h]
      rcases ih (q+1) with h1 | ⟨h2, h3⟩
      · exact Or.inl h1
      · exact Or.inr ⟨Nat.le_trans (Nat.le_succ q) h2, h3⟩

theorem scanFwd_min (buf : Buffer) (ws we : Bool) :
    ∀ fuel q r, q ≤ r → r < q + fuel → matchesClass buf ws we r = true →
      scanFwd buf ws we q fuel ≤ r := by
  intro fuel
  induction fuel with
  | zero => intro q r hqr hlt _; omega
  | succ n ih =>
    intro q r hqr hlt hm
    simp only [scanFwd]
    by_cases h : matchesClass buf ws we q = true
    · rw [if_pos h]; exact hqr
    · rw [if_neg h]
      have hqr2 : q + 1 ≤ r := by
        rcases Nat.eq_or_lt_of_le hqr with heq | hlt2
        · subst heq; exact absurd hm h
        · exact hlt2
      exact ih (q+1) r hqr2 (by omega) hm

theorem findByClassFwd_le (buf : Buffer) (ws we : Bool) (pt r : Nat)
    (h1 : pt < r) (h2 : r ≤ buf.length) (hm : matchesClass buf ws we r = true) :
    findByClassFwd buf ws we pt ≤ r := by
  unfold findByClassFwd
  exact scanFwd_min buf ws we (buf.length - pt) (pt+1) r h1 (by omega) hm

theorem findByClassFwd_cases (buf : Buffer) (ws we : Bool) (pt : Nat) :
    findByClassFwd buf ws we pt = buf.length ∨
      (pt < findByClassFwd buf ws we pt ∧
        matchesClass buf ws we (findByClassFwd buf ws we pt) = true) := by
  unfold findByClassFwd
  rcases scanFwd_default_or_found buf ws we (buf.length - pt) (pt+1) with h | ⟨h1, h2⟩
  · exact Or.inl h
  · exact Or.inr ⟨Nat.lt_of_succ_le h1, h2⟩

theorem findByClassFwd_gt (buf : Buffer) (ws we : Bool) (pt : Nat)
    (h : pt < buf.length) : pt < findByClassFwd buf ws we pt := by
  rcases findByClassFwd_cases buf ws we pt with h1 | ⟨h1, _⟩
  · omega
  · exact h1

theorem findByClassFwd_found (buf : Buffer) (ws we : Bool) (pt r : Nat)
    (h1 : pt < r) (h2 : r ≤ buf.length) (hm : matchesClass buf ws we r = true) :
    matchesClass buf ws we (findByClassFwd buf ws we pt) = true ∧
      pt < findByClassFwd buf ws we pt := by
  have hle := findByClassFwd_le buf ws we pt r h1 h2 hm
  rcases findByClassFwd_cases buf ws we pt with hd | ⟨hgt, hmm⟩
  · have : r = buf.length := by omega
    subst this
    exact ⟨by rw [hd]; exact hm, by omega⟩
  · exact ⟨hmm, hgt⟩

theorem exists_wordEnd_after (buf : Buffer) :
    ∀ n pt, buf.length - pt ≤ n → isWordAt buf pt = true →
      ∃ e, pt < e ∧ e ≤ buf.length ∧ isWordEnd buf e = true := by
  intro n
  induction n with
  | zero =>
    intro pt hn h
    exact absurd (isWordAt_lt_length buf pt h) (by omega)
  | succ n ih =>
    intro pt hn h
    by_cases h2 : isWordAt buf (pt+1) = true
    · obtain ⟨e, he1, he2, he3⟩ :=
        ih (pt+1) (by have := isWordAt_lt_length buf pt h; omega) h2
      exact ⟨e, by omega, he2, he3⟩
    · refine ⟨pt+1, Nat.lt_succ_self pt, ?_, ?_⟩
      · have := isWordAt_lt_length buf pt h; omega
      · unfold isWordEnd
        simp [h, h2]

/-! ## Mutual exclusivity of the classifier predicates -/

theorem single_word_facts (buf : Buffer) (r : Region)
    (h : is_single_complete_word buf r = true) :
    isWordStart buf r.begin = true ∧ isWordEnd buf r.stop = true ∧
      r.begin < r.stop := by
  unfold is_single_complete_word at h
  split at h
  case isFalse => exact Bool.noConfusion h
  case isTrue hws =>
    have heq : findByClassFwd buf false true r.begin = r.stop := by
      simpa using h
    have hat : isWordAt buf r.begin = true := by
      unfold isWordStart at hws
      simp only [Bool.and_eq_true] at hws
      exact hws.1
    obtain ⟨e, he1, he2, he3⟩ :=
      exists_wordEnd_after buf (buf.length - r.begin) r.begin (Nat.le_refl _) hat
    have hfound := findByClassFwd_found buf false true r.begin e he1 he2
      (by rw [matchesClass_we]; exact he3)
    rw [heq] at hfound
    rw [matchesClass_we] at hfound
    exact ⟨hws, hfound.1, hfound.2⟩

theorem multiple_words_facts (buf : Buffer) (r : Region)
    (h : is_multiple_complete_words buf r = true) :
    isWordStart buf r.begin = true ∧ isWordEnd buf r.stop = true ∧
      r.begin < r.stop ∧ is_single_complete_word buf r = false := by
  unfold is_multiple_complete_words at h
  split at h
  case isFalse => exact Bool.noConfusion h
  case isTrue hws =>
    split at h
    case isFalse => exact Bool.noConfusion h
    case isTrue hwe =>
      have hns : is_single_complete_word buf r = false := by
        cases hs : is_single_complete_word buf r
        · rfl
        · rw [hs] at h; exact Bool.noConfusion h
      have hat : isWordAt buf r.begin = true := by
        unfold isWordStart at hws
        simp only [Bool.and_eq_true] at hws
        exact hws.1
      have hnat : isWordAt buf r.stop = false := by
        unfold isWordEnd at hwe
        simp only [Bool.and_eq_true] at hwe
        have := hwe.2
        cases hx : isWordAt buf r.stop
        · rfl
        · rw [hx] at this; exact Bool.noConfusion this
      have hne : r.begin ≠ r.stop := by
        intro hcontra
        rw [hcontra, hnat] at hat
        exact Bool.noConfusion hat
      have hle : r.begin ≤ r.stop :=
        Nat.le_trans (Nat.min_le_left r.a r.b) (Nat.le_max_left r.a r.b)
      exact ⟨hws, hwe, Nat.lt_of_le_of_ne hle hne, hns⟩

/-- When the region begins at a word start there is a word end at or before
any word-boundary point at or past the region end, so the no-word predicate
is refuted; shared backbone of the two exclusivity lemmas below. -/
theorem noword_false_of_ws_we (buf : Buffer) (r : Region)
    (hws : isWordStart buf r.begin = true) (hwe : isWordEnd buf r.stop = true)
    (hlt : r.begin < r.stop) : is_not_part_of_any_word buf r = false := by
  have hstople : r.stop ≤ buf.length := by
    unfold isWordEnd at hwe
    simp only [Bool.and_eq_true] at hwe
    have := isWordAt_lt_length buf (r.stop - 1) hwe.1.2
    have hne : r.stop ≠ 0 := by
      intro hz
      rw [hz] at hwe
      exact absurd hwe.1.1 (by decide)
    omega
  have hple : findByClassFwd buf true true r.begin ≤ r.stop :=
    findByClassFwd_le buf true true r.begin r.stop hlt hstople
      (matchesClass_wswe_of_we buf r.stop hwe)
  unfold is_not_part_of_any_word
  split
  case isTrue hcond =>
    simp only [Bool.and_eq_true] at hcond
    have hab : r.a = r.b := by
      have h2 := hcond.2
      unfold Region.isEmpty at h2
      simpa using h2
    have heq2 : r.begin = r.stop := by
      unfold Region.begin Region.stop
      rw [hab]
      simp
    exact absurd heq2 (Nat.ne_of_lt hlt)
  case isFalse hcond =>
    cases hx : isWordStart buf (findByClassFwd buf true true r.begin)
    · simp [hx]
    · have heqstop : findByClassFwd buf true true r.begin = r.stop ∨
          findByClassFwd buf true true r.begin < r.stop := by omega
      rcases heqstop with heq | hlt2
      · rw [heq] at hx
        rw [wordStart_not_wordEnd buf r.stop hx] at hwe
        exact Bool.noConfusion hwe
      · simp [hx, Nat.not_le_of_lt hlt2]

theorem noword_excludes_single (buf : Buffer) (r : Region)
    (h : is_single_complete_word buf r = true) :
    is_not_part_of_any_word buf r = false := by
  obtain ⟨hws, hwe, hlt⟩ := single_word_facts buf r h
  exact noword_false_of_ws_we buf r hws hwe hlt

theorem noword_excludes_multiple (buf : Buffer) (r : Region)
    (h : is_multiple_complete_words buf r = true) :
    is_not_part_of_any_word buf r = false := by
  obtain ⟨hws, hwe, hlt, _⟩ := multiple_words_facts buf r h
  exact noword_false_of_ws_we buf r hws hwe hlt

theorem multiple_excludes_single (buf : Buffer) (r : Region)
    (h : is_multiple_complete_words buf r = true) :
    is_single_complete_word buf r = false :=
  (multiple_words_facts buf r h).2.2.2

/-- Claim C1 (counterexample): the four raw classifier predicates are neither
pairwise mutually exclusive nor jointly exhaustive.  In buffer `"ab cd"`, the
region `[0,5)` (both complete words) satisfies `is_multiple_complete_words`
and `is_part_of_multiple_words` simultaneously, and the region `[1,2)` (the
second half of `"ab"`) satisfies none of the four predicates. -/
theorem classifier_raw_predicates_overlap :
    (is_multiple_complete_words cexBuf (Region.mk 0 5) = true ∧
     is_part_of_multiple_words cexBuf (Region.mk 0 5) = true) ∧
    (is_not_part_of_any_word cexBuf (Region.mk 1 2) = false ∧
     is_single_complete_word cexBuf (Region.mk 1 2) = false ∧
     is_multiple_complete_words cexBuf (Region.mk 1 2) = false ∧
     is_part_of_multiple_words cexBuf (Region.mk 1 2) = false) := by
  decide

/-- Claim C1 (amended): when the four word-shape categories are taken in the
order the navigation code tests them — no-word, then single-complete-word,
then multiple-complete-words, with the partial/mixed category as everything
the first three reject — exactly one category holds for every buffer and
region.  The substance is that the first three raw predicates are pairwise
mutually exclusive; the raw `is_part_of_multiple_words`, by contrast,
overlaps `is_multiple_complete_words` (see the counterexample). -/
theorem classifier_dispatch_categories_partition (buf : Buffer) (r : Region) :
    ([is_not_part_of_any_word buf r, is_single_complete_word buf r,
      is_multiple_complete_words buf r, is_mixed_word_selection buf r].count true) = 1 := by
  unfold is_mixed_word_selection
  cases h1 : is_not_part_of_any_word buf r <;>
    cases h2 : is_single_complete_word buf r <;>
      cases h3 : is_multiple_complete_words buf r
  · simp [h1, h2, h3, List.count_cons]
  · simp [h1, h2, h3, List.count_cons]
  · simp [h1, h2, h3, List.count_cons]
  · rw [multiple_excludes_single buf r h3] at h2
    exact Bool.noConfusion h2
  · simp [h1, h2, h3, List.count_cons]
  · rw [noword_excludes_multiple buf r h3] at h1
    exact Bool.noConfusion h1
  · rw [noword_excludes_single buf r h2] at h1
    exact Bool.noConfusion h1
  · rw [noword_excludes_single buf r h2] at h1
    exact Bool.noConfusion h1

/-! ## Theorems about the navigation policy -/

/-- Claim C2 (counterexample): in buffer `"ab  cd ab cd"` the empty region at
offset 3 classifies as no-word; forward same-word navigation returns the
pivot word region `[4,6)` (the first `"cd"`) itself, although the search for
the pivot's text that the claim prescribes as the destination would find the
later occurrence `[10,12)`. -/
theorem no_word_navigation_does_not_search :
    is_not_part_of_any_word navBuf (Region.mk 3 3) = true ∧
    getRegionOfWordClosestToRegion navBuf manualSettings 3 (Region.mk 3 3) true =
      (some (Region.mk 4 6), []) ∧
    get_region_of_closet_same_word navBuf (Region.mk 4 6) true false true =
      some (Region.mk 10 12) ∧
    Region.mk 4 6 ≠ Region.mk 10 12 := by
  decide

/-- Claim C2 (amended): for every same-word navigation invocation whose
single selected region classifies as no-word, the destination is the region
of the word nearest the caret in the requested direction itself — the next
word's region when moving forward, the previous word's when moving backward —
returned directly without performing any same-word occurrence search (the
result is independent of the search settings and no search-phase messages
are logged). -/
theorem no_word_navigation_returns_directional_adjacent_word
    (buf : Buffer) (st : NavSettings) (caret : Nat) (region : Region) (forward : Bool)
    (h : is_not_part_of_any_word buf region = true) :
    getRegionOfWordClosestToRegion buf st caret region forward =
      (some (if forward then get_next_word_region_from_pt buf caret false
             else get_previous_word_region_from_pt buf caret false), []) := by
  unfold getRegionOfWordClosestToRegion
  rw [if_pos h]

/-- Witness for C2 (amended): at the concrete no-word input of the
counterexample, the destination is the next word region `[4,6)`. -/
theorem no_word_navigation_returns_directional_adjacent_word_witness :
    getRegionOfWordClosestToRegion navBuf manualSettings 3 (Region.mk 3 3) true =
      (some (if true then get_next_word_region_from_pt navBuf 3 false
             else get_previous_word_region_from_pt navBuf 3 false), []) :=
  no_word_navigation_returns_directional_adjacent_word navBuf manualSettings 3
    (Region.mk 3 3) true (by decide)

/-- Claim C5: when multiple disjoint regions are selected, both the same-word
and the in-line navigation commands are no-ops: the view (hence the
selection) is unchanged, no exception escapes (the in-line command, whose
other paths can raise, returns `Except.ok`), and exactly one warning is
logged. -/
theorem multiple_selection_aborts_with_one_warning (v : View) (st : NavSettings)
    (forward : Bool) (h : 1 < v.sel.length) :
    navigate v st forward = (v, [LogLevel.warning]) ∧
    navigateInLine v st forward = Except.ok (v, [LogLevel.warning]) := by
  have hm : is_multiple_regions_selected v = true := by
    unfold is_multiple_regions_selected
    simpa using h
  constructor
  · unfold navigate getRegionOfWordClosestToSelection
    rw [if_pos hm]
  · unfold navigateInLine getRegionOfClosestWordInLineCmd
    rw [if_pos hm]

/-- Witness for C5: on the concrete two-region selection, both commands leave
the view unchanged and log one warning. -/
theorem multiple_selection_aborts_with_one_warning_witness :
    navigate multiSelView manualSettings true = (multiSelView, [LogLevel.warning]) ∧
    navigateInLine multiSelView manualSettings true =
      Except.ok (multiSelView, [LogLevel.warning]) :=
  multiple_selection_aborts_with_one_warning multiSelView manualSettings true (by decide)

/-- Claim C6: a same-word search that finds no match returns `none` — the
model of the code's explicit not-found result (`view.find` returning an empty
region, mapped to `None`) — rather than raising, and a navigation invocation
whose pipeline produces no destination leaves the view, hence the selection,
unchanged.  The first two parts cover the wrap-disabled forward and backward
searches reaching the buffer edge with no occurrence on the searched side;
the third is the unchanged selection. -/
theorem search_miss_returns_none_and_preserves_selection :
    (∀ (buf : Buffer) (wr : Region) (cs : Bool),
      (∀ s, s < buf.length + 1 → wr.stop ≤ s →
        matchesWordAt buf (substr buf wr) cs s = false) →
      get_region_of_closet_same_word buf wr true false cs = none) ∧
    (∀ (buf : Buffer) (wr : Region) (cs : Bool),
      (∀ s, s < buf.length + 1 → s + (substr buf wr).length ≤ wr.begin →
        matchesWordAt buf (substr buf wr) cs s = false) →
      get_region_of_closet_same_word buf wr false false cs = none) ∧
    (∀ (v : View) (st : NavSettings) (forward : Bool),
      (getRegionOfWordClosestToSelection v st forward).1 = none →
      navigate v st forward = (v, (getRegionOfWordClosestToSelection v st forward).2)) := by
  refine ⟨?_, ?_, ?_⟩
  · intro buf wr cs h
    unfold get_region_of_closet_same_word viewFind
    have hnil : (((List.range (buf.length + 1)).filter
        (fun s => matchesWordAt buf (substr buf wr) cs s)).filter
        (fun s => decide (wr.stop ≤ s))) = [] := by
      rw [List.filter_eq_nil_iff]
      intro s hs
      have hmem := List.mem_filter.mp hs
      have hrange := List.mem_range.mp hmem.1
      intro hdec
      have hle : wr.stop ≤ s := of_decide_eq_true hdec
      rw [h s hrange hle] at hmem
      exact Bool.noConfusion hmem.2
    simp [hnil]
  · intro buf wr cs h
    unfold get_region_of_closet_same_word viewFind
    have hnil : (((List.range (buf.length + 1)).filter
        (fun s => matchesWordAt buf (substr buf wr) cs s)).filter
        (fun s => decide (s + (substr buf wr).length ≤ wr.begin))) = [] := by
      rw [List.filter_eq_nil_iff]
      intro s hs
      have hmem := List.mem_filter.mp hs
      have hrange := List.mem_range.mp hmem.1
      intro hdec
      have hle := of_decide_eq_true hdec
      rw [h s hrange hle] at hmem
      exact Bool.noConfusion hmem.2
    simp [hnil]
  · intro v st forward h
    rcases hx : getRegionOfWordClosestToSelection v st forward with ⟨o, logs⟩
    rw [hx] at h
    simp only at h
    subst h
    unfold navigate
    rw [hx]

/-- Witness for C6: forward search for the selected final word `"cd"` of
`"ab cd"` with wrap disabled misses and returns `none`, and the navigation
command leaves the view unchanged. -/
theorem search_miss_returns_none_and_preserves_selection_witness :
    get_region_of_closet_same_word cexBuf (Region.mk 3 5) true false true = none ∧
    navigate cdSelView manualSettings true =
      (cdSelView, (getRegionOfWordClosestToSelection cdSelView manualSettings true).2) :=
  ⟨search_miss_returns_none_and_preserves_selection.1 cexBuf (Region.mk 3 5) true (by decide),
   search_miss_returns_none_and_preserves_selection.2.2 cdSelView manualSettings true (by decide)⟩

/-! ## Facts about line geometry -/

theorem lineStartPos_le_length (buf : Buffer) : ∀ r, lineStartPos buf r ≤ buf.length := by
  induction buf with
  | nil => intro r; cases r <;> simp [lineStartPos]
  | cons c cs ih =>
    intro r
    cases r with
    | zero => simp [lineStartPos]
    | succ k =>
      simp only [lineStartPos, List.length_cons]
      by_cases hc : c = '\n'
      · rw [if_pos hc]
        have := ih k
        omega
      · rw [if_neg hc]
        have := ih (k+1)
        omega

theorem lineStartPos_rowOf_le (buf : Buffer) : ∀ pt, lineStartPos buf (rowOf buf pt) ≤ pt := by
  induction buf with
  | nil => intro pt; cases pt <;> simp [rowOf, lineStartPos]
  | cons c cs ih =>
    intro pt
    cases pt with
    | zero => simp [rowOf, lineStartPos]
    | succ p =>
      simp only [rowOf]
      by_cases hc : c = '\n'
      · rw [if_pos hc]
        rw [Nat.add_comm 1 (rowOf cs p)]
        show lineStartPos (c :: cs) (rowOf cs p + 1) ≤ p + 1
        simp only [lineStartPos]
        rw [if_pos hc]
        have := ih p
        -- ih is about rowOf cs p; strengthen: lineStartPos cs k ≤ lineStartPos cs (rowOf cs p)?
        -- direct: lineStartPos cs (rowOf cs p) ≤ p
        omega
      · rw [if_neg hc]
        rw [Nat.zero_add]
        cases hrow : rowOf cs p with
        | zero => simp [lineStartPos]
        | succ k =>
          show lineStartPos (c :: cs) (k + 1) ≤ p + 1
          simp only [lineStartPos]
          rw [if_neg hc]
          have := ih p
          rw [hrow] at this
          omega

theorem lineStartPos_strict_or_end (buf : Buffer) :
    ∀ r, lineStartPos buf r = buf.length ∨ lineStartPos buf r < lineStartPos buf (r+1) := by
  induction buf with
  | nil => intro r; left; cases r <;> simp [lineStartPos]
  | cons c cs ih =>
    intro r
    cases r with
    | zero =>
      right
      show 0 < lineStartPos (c :: cs) 1
      simp only [lineStartPos]
      by_cases hc : c = '\n'
      · rw [if_pos hc]; omega
      · rw [if_neg hc]; omega
    | succ k =>
      simp only [lineStartPos, List.length_cons]
      by_cases hc : c = '\n'
      · rw [if_pos hc, if_pos hc]
        rcases ih k with h | h
        · left; omega
        · right; omega
      · rw [if_neg hc, if_neg hc]
        rcases ih (k+1) with h | h
        · left; omega
        · right; omega

theorem rowOf_of_between (buf : Buffer) :
    ∀ r p, lineStartPos buf r ≤ p → p < lineStartPos buf (r+1) → rowOf buf p = r := by
  induction buf with
  | nil =>
    intro r p h1 h2
    exfalso
    cases r with
    | zero => simp [lineStartPos] at h2
    | succ k => simp [lineStartPos] at h2
  | cons c cs ih =>
    intro r p h1 h2
    cases r with
    | zero =>
      cases p with
      | zero => simp [rowOf]
      | succ q =>
        rw [Nat.zero_add] at h2
        rw [show lineStartPos (c :: cs) 1 =
            if c = '\n' then lineStartPos cs 0 + 1 else lineStartPos cs 1 + 1 from rfl] at h2
        by_cases hc : c = '\n'
        · rw [if_pos hc] at h2
          exfalso
          simp only [lineStartPos] at h2
          omega
        · rw [if_neg hc] at h2
          simp only [rowOf]
          rw [if_neg hc]
          have hb : q < lineStartPos cs 1 := by omega
          have hz : lineStartPos cs 0 ≤ q := by
            simp only [lineStartPos]
            omega
          have := ih 0 q hz (by rw [Nat.zero_add]; exact hb)
          omega
    | succ k =>
      have hp : 0 < p := by
        simp only [lineStartPos] at h1
        by_cases hc : c = '\n'
        · rw [if_pos hc] at h1; omega
        · rw [if_neg hc] at h1; omega
      cases p with
      | zero => omega
      | succ q =>
        simp only [lineStartPos] at h1 h2
        simp only [rowOf]
        by_cases hc : c = '\n'
        · rw [if_pos hc] at h1 h2 ⊢
          have := ih k q (by omega) (by omega)
          omega
        · rw [if_neg hc] at h1 h2 ⊢
          have := ih (k+1) q (by omega) (by omega)
          omega

/-! ## Facts about word runs and the in-line search -/

theorem wordRuns_lt (buf : Buffer) (w : Region) (hw : w ∈ wordRuns buf) :
    w.a < w.b := by
  unfold wordRuns at hw
  obtain ⟨s, hs, rfl⟩ := List.mem_map.mp hw
  have hmem := List.mem_filter.mp hs
  have hws : isWordStart buf s = true := hmem.2
  have hat : isWordAt buf s = true := by
    unfold isWordStart at hws
    simp only [Bool.and_eq_true] at hws
    exact hws.1
  exact findByClassFwd_gt buf false true s (isWordAt_lt_length buf s hat)

theorem findAllWordsWithin_mem_wordRuns (buf : Buffer) (r : Region) (w : Region)
    (hw : w ∈ findAllWordsWithin buf r) : w ∈ wordRuns buf :=
  (List.mem_filter.mp hw).1

theorem findAllWordsWithin_degenerate (buf : Buffer) (x : Nat) :
    findAllWordsWithin buf (Region.mk x x) = [] := by
  rw [findAllWordsWithin, List.filter_eq_nil_iff]
  intro w hw
  have hlt := wordRuns_lt buf w hw
  intro hcond
  simp only [Bool.and_eq_true, decide_eq_true_eq] at hcond
  unfold Region.begin Region.stop at hcond
  simp only [Nat.min_self, Nat.max_self] at hcond
  omega

theorem getRegionOfClosestWordInLine_wrap_eq (buf : Buffer) (point : Nat) (forward : Bool)
    (hfirst : findAllWordsWithin buf
      (lineSearchRegion buf forward (rowOf buf point) (colOf buf point)) = []) :
    getRegionOfClosestWordInLine buf point forward true =
      (if colOf buf point = (wrapTarget buf (rowOf buf point) forward).2 then none
       else pickRegion forward (findAllWordsWithin buf (lineSearchRegion buf forward
         (wrapTarget buf (rowOf buf point) forward).1
         (wrapTarget buf (rowOf buf point) forward).2))) := by
  simp only [getRegionOfClosestWordInLine]
  rw [hfirst]
  simp

/-- Claim C7: when an in-line word search with wrapping enabled finds no word
in the requested direction (the first search of the line span comes up
empty), the search is repeated exactly once from the opposite end of the line
(column 0 forward; the line's end column backward), and the result is the
pick from that single retry; when the starting column already equals the wrap
target column (the cursor was at the wrap boundary), the function returns
`none` directly — and indeed the retry span could contain no word anyway, so
nothing is lost and no repeated or looping search occurs. -/
theorem inline_wrap_retries_once_from_opposite_end (buf : Buffer) (point : Nat)
    (forward : Bool) (hpt : point ≤ buf.length)
    (hfirst : findAllWordsWithin buf
      (lineSearchRegion buf forward (rowOf buf point) (colOf buf point)) = []) :
    (colOf buf point = (wrapTarget buf (rowOf buf point) forward).2 →
      getRegionOfClosestWordInLine buf point forward true = none ∧
      findAllWordsWithin buf (lineSearchRegion buf forward
        (wrapTarget buf (rowOf buf point) forward).1
        (wrapTarget buf (rowOf buf point) forward).2) = []) ∧
    (colOf buf point ≠ (wrapTarget buf (rowOf buf point) forward).2 →
      getRegionOfClosestWordInLine buf point forward true =
        pickRegion forward (findAllWordsWithin buf (lineSearchRegion buf forward
          (wrapTarget buf (rowOf buf point) forward).1
          (wrapTarget buf (rowOf buf point) forward).2))) := by
  have key := getRegionOfClosestWordInLine_wrap_eq buf point forward hfirst
  constructor
  · intro hcol
    refine ⟨by rw [key, if_pos hcol], ?_⟩
    cases forward with
    | true =>
      have ht1 : (wrapTarget buf (rowOf buf point) true).1 = rowOf buf point := rfl
      have ht2 : (wrapTarget buf (rowOf buf point) true).2 = 0 := rfl
      rw [ht2] at hcol
      rw [ht1, ht2]
      rw [← hcol]
      exact hfirst
    | false =>
      have ht1 : (wrapTarget buf (rowOf buf point) false).1 =
          rowOf buf (textPoint buf (rowOf buf point + 1) 0 - 1) := rfl
      have ht2 : (wrapTarget buf (rowOf buf point) false).2 =
          colOf buf (textPoint buf (rowOf buf point + 1) 0 - 1) := rfl
      rw [ht2] at hcol
      rw [ht1, ht2]
      have hL := lineStartPos_le_length buf (rowOf buf point + 1)
      have hq : textPoint buf (rowOf buf point + 1) 0 - 1 =
          lineStartPos buf (rowOf buf point + 1) - 1 := by
        have hmin : Nat.min (lineStartPos buf (rowOf buf point + 1)) (List.length buf) =
            lineStartPos buf (rowOf buf point + 1) := Nat.min_eq_left hL
        unfold textPoint
        rw [Nat.add_zero, hmin]
      rw [hq] at hcol ⊢
      rcases lineStartPos_strict_or_end buf (rowOf buf point) with hend | hstrict
      · have hcol0 : colOf buf point = 0 := by
          unfold colOf
          rw [hend]
          omega
        rw [hcol0] at hcol
        rw [← hcol]
        have hspan : lineSearchRegion buf false
            (rowOf buf (lineStartPos buf (rowOf buf point + 1) - 1)) 0 =
            Region.mk
              (textPoint buf (rowOf buf (lineStartPos buf (rowOf buf point + 1) - 1)) 0)
              (textPoint buf (rowOf buf (lineStartPos buf (rowOf buf point + 1) - 1)) 0) := rfl
        rw [hspan]
        exact findAllWordsWithin_degenerate buf _
      · have hrow : rowOf buf (lineStartPos buf (rowOf buf point + 1) - 1) = rowOf buf point :=
          rowOf_of_between buf (rowOf buf point) _ (by omega) (by omega)
        rw [hrow]
        rw [← hcol]
        exact hfirst
  · intro hcol
    rw [key, if_neg hcol]

/-- Witness for C7: in the single-line buffer `"ab"` with the caret at the
line's end, the forward in-line search finds nothing, and with wrap enabled
the result is the pick from the single retry started at column 0. -/
theorem inline_wrap_retries_once_from_opposite_end_witness :
    getRegionOfClosestWordInLine abBuf 2 true true =
      pickRegion true (findAllWordsWithin abBuf (lineSearchRegion abBuf true
        (wrapTarget abBuf (rowOf abBuf 2) true).1
        (wrapTarget abBuf (rowOf abBuf 2) true).2)) :=
  (inline_wrap_retries_once_from_opposite_end abBuf 2 true (by decide) (by decide)).2
    (by decide)

theorem head?_mem_of_eq {α : Type} {l : List α} {a : α} (h : l.head? = some a) : a ∈ l := by
  cases l with
  | nil => exact Option.noConfusion h
  | cons x xs =>
    simp only [List.head?_cons] at h
    injection h with h
    subst h
    exact List.mem_cons_self x xs

theorem getLast?_mem_of_eq {α : Type} {l : List α} {a : α} (h : l.getLast? = some a) :
    a ∈ l := by
  induction l with
  | nil => exact Option.noConfusion h
  | cons x xs ih =>
    cases xs with
    | nil =>
      simp only [List.getLast?_singleton] at h
      injection h with h
      subst h
      exact List.mem_cons_self x []
    | cons y ys =>
      rw [List.getLast?_cons_cons] at h
      exact List.mem_cons_of_mem x (ih h)

/-- Every destination of `get_region_of_closest_word_in_line` is picked (by
`pickRegion`) from a list of genuine word runs of the buffer. -/
theorem getRegionOfClosestWordInLine_source (buf : Buffer) (point : Nat)
    (forward wrap : Bool) (reg : Region)
    (h : getRegionOfClosestWordInLine buf point forward wrap = some reg) :
    ∃ l : List Region, (∀ w ∈ l, w ∈ wordRuns buf) ∧ pickRegion forward l = some reg := by
  simp only [getRegionOfClosestWordInLine] at h
  split at h
  · split at h
    · exact Option.noConfusion h
    · split at h
      · exact Option.noConfusion h
      · exact ⟨_, fun w hw => findAllWordsWithin_mem_wordRuns buf _ w hw, h⟩
  · exact ⟨_, fun w hw => findAllWordsWithin_mem_wordRuns buf _ w hw, h⟩

/-- Claim C10: reversing a region swaps its endpoints without changing the
underlying character span; every backward in-line navigation result is the
reversal of a word run (first coordinate the word's end, second — where the
caret lands — the word's start), while every forward in-line navigation
result is a word run as-is (non-reversed, since runs satisfy `a < b`). -/
theorem inline_backward_region_reversed (buf : Buffer) (point : Nat) (wrap : Bool) :
    (∀ r : Region, (reverseRegion r).begin = r.begin ∧ (reverseRegion r).stop = r.stop) ∧
    (∀ reg : Region, getRegionOfClosestWordInLine buf point true wrap = some reg →
      reg ∈ wordRuns buf ∧ reg.a < reg.b) ∧
    (∀ reg : Region, getRegionOfClosestWordInLine buf point false wrap = some reg →
      ∃ w, w ∈ wordRuns buf ∧ w.a < w.b ∧ reg.a = w.b ∧ reg.b = w.a) := by
  refine ⟨?_, ?_, ?_⟩
  · intro r
    have hmm : Nat.min r.a r.b ≤ Nat.max r.a r.b :=
      Nat.le_trans (Nat.min_le_left r.a r.b) (Nat.le_max_left r.a r.b)
    constructor
    · show Nat.min (reverseRegion r).a (reverseRegion r).b = Nat.min r.a r.b
      rw [show (reverseRegion r).a = Nat.max r.a r.b from rfl,
        show (reverseRegion r).b = Nat.min r.a r.b from rfl]
      exact Nat.min_eq_right hmm
    · show Nat.max (reverseRegion r).a (reverseRegion r).b = Nat.max r.a r.b
      rw [show (reverseRegion r).a = Nat.max r.a r.b from rfl,
        show (reverseRegion r).b = Nat.min r.a r.b from rfl]
      exact Nat.max_eq_left hmm
  · intro reg h
    obtain ⟨l, hsub, hpick⟩ := getRegionOfClosestWordInLine_source buf point true wrap reg h
    unfold pickRegion at hpick
    rw [if_pos rfl] at hpick
    have hmem : reg ∈ l := head?_mem_of_eq hpick
    have hrun := hsub reg hmem
    exact ⟨hrun, wordRuns_lt buf reg hrun⟩
  · intro reg h
    obtain ⟨l, hsub, hpick⟩ := getRegionOfClosestWordInLine_source buf point false wrap reg h
    unfold pickRegion at hpick
    rw [if_neg (by decide)] at hpick
    rcases hw : l.getLast? with _ | w
    · rw [hw] at hpick
      exact Option.noConfusion hpick
    · rw [hw] at hpick
      have hpick2 : some (reverseRegion w) = some reg := hpick
      injection hpick2 with hpick
      have hmem : w ∈ l := getLast?_mem_of_eq hw
      have hrun := hsub w hmem
      have hlt := wordRuns_lt buf w hrun
      refine ⟨w, hrun, hlt, ?_, ?_⟩
      · rw [← hpick]
        show Nat.max w.a w.b = w.b
        exact Nat.max_eq_right (Nat.le_of_lt hlt)
      · rw [← hpick]
        show Nat.min w.a w.b = w.a
        exact Nat.min_eq_left (Nat.le_of_lt hlt)

/-- Witness for C10: in buffer `"ab cd"`, backward in-line navigation from
the line end yields the reversed region `(5, 3)` over the word run `[3,5)`
(`"cd"`), and forward navigation from offset 0 yields the run `[0,2)`
(`"ab"`) non-reversed. -/
theorem inline_backward_region_reversed_witness :
    (∃ w, w ∈ wordRuns cexBuf ∧ w.a < w.b ∧
      (Region.mk 5 3).a = w.b ∧ (Region.mk 5 3).b = w.a) ∧
    (Region.mk 0 2 ∈ wordRuns cexBuf ∧ (Region.mk 0 2).a < (Region.mk 0 2).b) :=
  ⟨(inline_backward_region_reversed cexBuf 5 false).2.2 (Region.mk 5 3) (by decide),
   (inline_backward_region_reversed cexBuf 0 false).2.1 (Region.mk 0 2) (by decide)⟩
